import Mathlib

/-!
Shallow embedding of `src/tools/fpgajtag/boundary_scan.c` (mega65-core):
the XDC pin-descriptor parser (`parse_xdc`), the BSDL boundary-layout
parser (`parse_bsdl`), the per-bit resolver and the scan-monitor loop of
`xilinx_boundaryscan`.

Modelling conventions:
* C strings become Lean `String` / `List Char`; a possibly-NULL `char *`
  becomes `Option String`.
* The `sscanf`/`strstr` line recognisers are abstracted into inductive
  line shapes (`BsdlLine`, `XdcLine`): each constructor corresponds to one
  pattern of the C code matching and carries exactly the fields the C code
  extracts from the line.  Everything the C code does *after* a pattern
  matches (bounds checks, table stores, message emission) is translated
  statement by statement.
* Fixed C arrays indexed by an int become total functions
  `Nat → Option _` (NULL-initialised) plus the explicit capacity constant;
  the out-of-bounds behaviour is studied through the index sets the loops
  touch.
* Passing a NULL pointer to `strcmp`/`strcasestr` is undefined behaviour
  in C; the resolver models it as `Except.error`.
-/

deriving instance DecidableEq for Except

namespace BoundaryScan

/-- The macro `MAX_PINS` = 4096 (boundary_scan.c line 20). -/
def MAX_PINS : Nat := 4096

/-- The macro `MAX_BOUNDARY_BITS` = 8192 (boundary_scan.c line 25). -/
def MAX_BOUNDARY_BITS : Nat := 8192

/-- Size in bytes of the `last_rdata[1024]` capture-snapshot buffer
(boundary_scan.c line 135); the spec requires the transport to return at
least this many bytes per capture. -/
def SNAPSHOT_BYTES : Nat := 1024

/-! ### String helpers translated from the C string idioms -/

/-- The pin-derivation loop of `parse_bsdl` (lines 111-112):
`bit_pin` starts at the whole name and is moved past every underscore
found, so the result is the suffix after the *last* underscore, or the
whole name when no underscore occurs. -/
def suffixAfterLastUnderscore : List Char → List Char
  | [] => []
  | c :: rest =>
    if rest.contains '_' then suffixAfterLastUnderscore rest
    else if c = '_' then rest
    else c :: rest

/-- Pin name derived from a boundary-bit full name, as in
`boundary_bit_pin[bit_number]=strdup(bit_pin)`. -/
def pinFromName (s : String) : String :=
  String.mk (suffixAfterLastUnderscore s.toList)

/-- Whether `needle` begins `haystack` up to ASCII case. -/
def ciPrefixAt : List Char → List Char → Bool
  | [], _ => true
  | _ :: _, [] => false
  | a :: as, b :: bs => (a.toLower = b.toLower) && ciPrefixAt as bs

/-- Case-insensitive substring search over char lists. -/
def ciSubstr (needle : List Char) : List Char → Bool
  | [] => ciPrefixAt needle []
  | b :: bs => ciPrefixAt needle (b :: bs) || ciSubstr needle bs

/-- The test `strcasestr(haystack, needle) != NULL`: the needle occurs in the
haystack as a case-insensitive substring (boundary_scan.c line 166 calls
`strcasestr(sensitivity, s)`, so the *signal* is the needle and the
*sensitivity string* is the haystack). -/
def strcasestrFound (haystack needle : String) : Bool :=
  ciSubstr needle.toList haystack.toList

/-! ### XDC pin-descriptor parser (`parse_xdc`, lines 32-83) -/

/-- One input line of the XDC file after the `strstr`-based extraction:
`mapping pin signal` is a non-comment line on which both the
`PACKAGE_PIN` token and the `get_ports` token were extracted (line 71:
`if (pin_name&&signal_name)`), carrying the two extracted texts; `other`
is any line failing either extraction (comment lines included). -/
inductive XdcLine where
  | mapping (pin signal : String)
  | other
  deriving DecidableEq

/-- The mutable globals `pin_names` / `signal_names` / `pin_count`
(lines 21-23), together with the list of array indices written, in order
(each store is `pin_names[pin_count]=...; signal_names[pin_count]=...`). -/
structure XdcState where
  pins : List (String × String)
  writes : List Nat
  deriving DecidableEq

/-- Processing of one XDC line (body of the `while` loop, lines 42-80):
a mapping line appends the pair at index `pin_count` and increments
`pin_count`, with no comparison against `MAX_PINS`; any other line leaves
the state untouched. -/
def xdcStep (st : XdcState) : XdcLine → XdcState
  | .mapping pin signal =>
      { pins := st.pins ++ [(pin, signal)], writes := st.writes ++ [st.pins.length] }
  | .other => st

/-- The function `parse_xdc` over the whole file: fold the per-line step from the
zero-initialised globals. -/
def parse_xdc (lines : List XdcLine) : XdcState :=
  lines.foldl xdcStep { pins := [], writes := [] }

/-- Whether a line is a mapping line (both tokens extracted). -/
def isMapping : XdcLine → Bool
  | .mapping _ _ => true
  | .other => false

/-! ### BSDL boundary-layout parser (`parse_bsdl`, lines 85-124) -/

/-- One stored boundary bit: the C code stores `boundary_bit_type`,
`boundary_bit_fullname` and `boundary_bit_pin` together (lines 109-113). -/
structure BoundaryBitRec where
  typ : String
  fullname : String
  pin : String
  deriving DecidableEq

/-- One input line of the BSDL file after `sscanf` recognition:
`header name count` is a line on which the header `sscanf`
`"attribute BOUNDARY_LENGTH of %s : entity is %d;"` (line 96) returns 2
(both conversions succeed); `partialHeader name` is a line on which it
returns 1 — the `%s` conversion succeeded and was already committed into
the global `part_name` buffer, but the `%d` conversion failed, so
`boundary_bit_count` is untouched and no message is printed;
`bit number name typ dflt` is a line whose bit-definition `sscanf`
(line 105) returned 4 (partial matches of that pattern write only
locals); `other` matches nothing that reaches a global.  The header and
bit `sscanf` patterns cannot match the same line (the bit pattern
demands leading whitespace then a quote). -/
inductive BsdlLine where
  | header (name : String) (count : Int)
  | partialHeader (name : String)
  | bit (number : Int) (name typ dflt : String)
  | other

/-- A progress message emitted during parsing: the `fprintf` of line 98,
issued once per matching header line. -/
structure HeaderMsg where
  name : String
  count : Int
  deriving DecidableEq

/-- The parser-owned globals: `part_name`, `boundary_bit_count` and the
three (here bundled) `boundary_bit_*` arrays, NULL-initialised before
parsing (lines 143-147), plus the progress messages printed. -/
structure BsdlState where
  part_name : String
  boundary_bit_count : Int
  bits : Nat → Option BoundaryBitRec
  msgs : List HeaderMsg

/-- Processing of one BSDL line (body of the `while` loop, lines 95-121):
a full header match overwrites `part_name` and `boundary_bit_count` (no
validation of the count) and prints one progress message; a partial
header match has already overwritten `part_name` during the failed
`sscanf` (the `%s` conversion is committed before the `%d` fails) but
updates nothing else and prints nothing; a bit line is stored at its
index iff `bit_number>=0 && bit_number<MAX_BOUNDARY_BITS` (line 108),
overwriting any prior entry there, and is silently discarded otherwise
(no store, no message); other lines do nothing. -/
def bsdlStep (st : BsdlState) : BsdlLine → BsdlState
  | .header name count =>
      { st with part_name := name, boundary_bit_count := count,
                msgs := st.msgs ++ [⟨name, count⟩] }
  | .partialHeader name => { st with part_name := name }
  | .bit number name typ _dflt =>
      if 0 ≤ number ∧ number < (MAX_BOUNDARY_BITS : Int) then
        { st with bits := fun j =>
            if (j : Int) = number then some ⟨typ, name, pinFromName name⟩ else st.bits j }
      else st
  | .other => st

/-- Initial parser state: zeroed globals, every bit-table entry NULL. -/
def bsdlInit : BsdlState :=
  { part_name := "", boundary_bit_count := 0, bits := fun _ => none, msgs := [] }

/-- The function `parse_bsdl` over the whole file. -/
def parse_bsdl (lines : List BsdlLine) : BsdlState :=
  lines.foldl bsdlStep bsdlInit

/-- The header fields of a line, when it is a fully matching header
line. -/
def headerOf : BsdlLine → Option (String × Int)
  | .header name count => some (name, count)
  | _ => none

/-- The identifier a line writes into `part_name`, when it writes one:
both a full header match and a partial header match commit the `%s`
conversion into the global buffer. -/
def partNameOf : BsdlLine → Option String
  | .header name _ => some name
  | .partialHeader name => some name
  | _ => none

/-! ### Bit resolver (`xilinx_boundaryscan`, lines 153-173) -/

/-- One row of the resolver output: `bbit_names[i]`, `bbit_ignore[i]`,
`bbit_show[i]` (lines 153-155). -/
structure ResolvedBit where
  bbit_names : String
  bbit_ignore : Bool
  bbit_show : Bool
  deriving DecidableEq

/-- The inner pin-matching loop (lines 159-161): `s` starts at
`"<unknown>"` and is overwritten by `signal_names[j]` on *every* match of
`pin_names[j]` against the bit's pin — there is no `break`, so the last
matching record wins. -/
def resolveSignal (pins : List (String × String)) (pin : String) : String :=
  pins.foldl (fun s p => if p.1 = pin then p.2 else s) "<unknown>"

/-- The ignore computation for one bit (lines 163-170): first the default
(`1` iff the resolved signal is exactly `"CLK_IN"`), then, when a
sensitivity string is present, an unconditional overwrite by the
`strcasestr` test. -/
def computeIgnore (sensitivity : Option String) (s : String) : Bool :=
  let ig := if s = "CLK_IN" then true else false
  match sensitivity with
  | some sens => if strcasestrFound sens s then false else true
  | none => ig

/-- Resolution of one bit (loop body, lines 158-173).  When the bit was
never stored, `boundary_bit_pin[i]` and `boundary_bit_type[i]` are NULL
and the C code passes them to `strcmp` (lines 161 and 171): undefined
behaviour, modelled as `Except.error`. -/
def resolveBit (pins : List (String × String)) (sensitivity : Option String) :
    Option BoundaryBitRec → Except Unit ResolvedBit
  | none => .error ()
  | some b =>
      let s := resolveSignal pins b.pin
      .ok { bbit_names := s,
            bbit_ignore := computeIgnore sensitivity s,
            bbit_show := b.typ = "input" }

/-- The resolver loop `for(i=0;i<boundary_bit_count;i++)` building the
three `bbit_*` tables; propagates the undefined behaviour of any absent
entry. -/
def resolveAll (pins : List (String × String)) (sensitivity : Option String)
    (bits : Nat → Option BoundaryBitRec) (count : Nat) :
    Except Unit (List ResolvedBit) :=
  (List.range count).mapM (fun i => resolveBit pins sensitivity (bits i))

/-! ### Scan monitor (`xilinx_boundaryscan`, lines 177-255) -/

/-- The tables the monitor loop reads per bit: the resolver outputs
`bbit_names` / `bbit_ignore` / `bbit_show` and the parser tables
`boundary_bit_fullname` / `boundary_bit_pin` used in the report printf
(lines 236-240). -/
structure MonitorTables where
  bbit_names : Nat → String
  bbit_ignore : Nat → Bool
  bbit_show : Nat → Bool
  boundary_bit_fullname : Nat → String
  boundary_bit_pin : Nat → String

/-- Extraction of bit `i` from a capture buffer (line 220):
`(rdata[(i)>>3]>>((i)&7))&1`.  The buffer is a byte sequence modelled as
`Nat → Nat`. -/
def bitAt (buf : Nat → Nat) (i : Nat) : Nat :=
  ((buf (i >>> 3)) >>> (i &&& 7)) &&& 1

/-- One printed per-bit report line (the printf of lines 236-240). -/
structure ReportLine where
  idx : Nat
  fullname : String
  pin : String
  signal : String
  value : Nat
  deriving DecidableEq

/-- The decision for one bit of one iteration (lines 220-243): the locals
`value`/`last_value` are extracted with `bitAt`, then the nested
conditions `bbit_show[i]`, `first_time||last_value!=value`,
`(first_time&&(!sensitivity))||(!bbit_ignore[i])` gate the report line
(the locals are inlined here). -/
def reportDecision (t : MonitorTables) (first_time sens_present : Bool)
    (rdata last_rdata : Nat → Nat) (i : Nat) : Option ReportLine :=
  if t.bbit_show i = true then
    if first_time = true ∨ bitAt last_rdata i ≠ bitAt rdata i then
      if (first_time = true ∧ sens_present = false) ∨ t.bbit_ignore i = false then
        some ⟨i, t.boundary_bit_fullname i, t.boundary_bit_pin i, t.bbit_names i, bitAt rdata i⟩
      else none
    else none
  else none

/-- The per-bit loop of one iteration (lines 218-244): the report lines
printed, in index order. -/
def perBitReports (t : MonitorTables) (count : Nat) (first_time sens_present : Bool)
    (rdata last_rdata : Nat → Nat) : List ReportLine :=
  (List.range count).filterMap (reportDecision t first_time sens_present rdata last_rdata)

/-- What one iteration prints after the capture (lines 215-245): with no
BSDL file, a raw dump of the first 256 captured bytes; otherwise the
per-bit report lines. -/
inductive MonitorOutput where
  | rawDump (bytes : List Nat)
  | reports (lines : List ReportLine)
  deriving DecidableEq

/-- One monitor iteration, after the capture `rdata` has been received:
`if (!bsdl) dump_bytes(0,"boundary data",rdata,256); else` the per-bit
loop (lines 215-245). -/
def monitorIteration (bsdl_supplied : Bool) (t : MonitorTables) (count : Nat)
    (first_time sens_present : Bool) (rdata last_rdata : Nat → Nat) : MonitorOutput :=
  if bsdl_supplied = false then .rawDump ((List.range 256).map rdata)
  else .reports (perBitReports t count first_time sens_present rdata last_rdata)

/-- The `do { ... } while(loop)` monitor over a (finite prefix of the)
stream of captures: state is `first_time` (starts true, cleared at line
253) and `last_rdata` (overwritten with the full capture at line 252,
`bcopy(rdata,last_rdata,1024)`). -/
def monitorSteps (bsdl_supplied : Bool) (t : MonitorTables) (count : Nat)
    (sens_present : Bool) : Bool → (Nat → Nat) → List (Nat → Nat) → List MonitorOutput
  | _, _, [] => []
  | first_time, last_rdata, rdata :: rest =>
      monitorIteration bsdl_supplied t count first_time sens_present rdata last_rdata ::
        monitorSteps bsdl_supplied t count sens_present false rdata rest

/-! ### Loop access-index sets for the bounds claims -/

/-- The indices `i` at which one resolver-build or per-bit-diff iteration
pass reads/writes the `MAX_BOUNDARY_BITS`-sized tables (`bbit_*`,
`boundary_bit_*`): both loops run `for(i=0;i<boundary_bit_count;i++)`
(lines 158 and 219) with no check against the capacity. -/
def bitLoopAccesses (count : Nat) : List Nat := List.range count

/-- The byte offsets at which the per-bit diff loop reads the capture
snapshots: `rdata[(i)>>3]` / `last_rdata[(i)>>3]` for each loop index
(lines 220-221). -/
def diffLoopByteAccesses (count : Nat) : List Nat :=
  (List.range count).map (fun i => i >>> 3)

/-! ## Helper lemmas -/

/-- The pin-matching fold keeps the signal of the last matching record:
it equals the last element of the matching records' signals, defaulting
to the accumulator when no record matches. -/
theorem foldl_pinMatch_eq_lastMatch (pin : String) :
    ∀ (l : List (String × String)) (acc : String),
      l.foldl (fun s p => if p.1 = pin then p.2 else s) acc =
        ((l.filter (fun p => p.1 = pin)).map Prod.snd).getLastD acc := by
  intro l
  induction l with
  | nil => intro acc; rfl
  | cons p t ih =>
    intro acc
    by_cases h : p.1 = pin
    · simp only [List.foldl_cons]
      rw [if_pos h, ih]
      rw [List.filter_cons_of_pos (by simp [h]), List.map_cons, List.getLastD_cons]
    · simp only [List.foldl_cons]
      rw [if_neg h, ih]
      rw [List.filter_cons_of_neg (by simp [h])]

/-! ## Claims -/

/-- C2: for every boundary bit, signal resolution scans all PinMapping
records in file order and keeps the signal of the *last* record whose pin
name equals the bit's pin (no early exit); with no match the signal is
`"<unknown>"`; in particular mappings `(A3, SIG1)` then `(A3, SIG2)`
resolve pin `A3` to `SIG2`. -/
theorem C2_last_match_wins :
    (∀ (pins : List (String × String)) (pin : String),
        resolveSignal pins pin =
          ((pins.filter (fun p => p.1 = pin)).map Prod.snd).getLastD "<unknown>") ∧
    resolveSignal [("A3", "SIG1"), ("A3", "SIG2")] "A3" = "SIG2" ∧
    resolveBit [("A3", "SIG1"), ("A3", "SIG2")] none (some ⟨"input", "U1_DATA_PIN_A3", "A3"⟩) =
      .ok ⟨"SIG2", false, true⟩ := by
  refine ⟨fun pins pin => foldl_pinMatch_eq_lastMatch pin pins "<unknown>", by decide, by decide⟩

/-- C3 counterexample: with sensitivity string `"CLK"`, a bit resolved to
signal `"sys_clk"` gets `ignore = true` (because `strcasestr("CLK",
"sys_clk")` looks for the signal *inside* the sensitivity string and
fails), refuting the claim that its ignore flag is false. -/
theorem C3_counterexample :
    resolveBit [("A1", "sys_clk")] (some "CLK") (some ⟨"input", "U_A1", "A1"⟩) =
      .ok ⟨"sys_clk", true, true⟩ ∧
    strcasestrFound "CLK" "sys_clk" = false := by
  exact ⟨by decide, by decide⟩

/-- C3 amended: with sensitivity string `"CLK"` supplied, a bit whose
resolved signal is `"sys_clk"` gets `ignore = true` (the signal text does
not occur inside `"CLK"`), and a bit whose resolved signal is `"DATA0"`
gets `ignore = true`. -/
theorem C3_amended_sensitivity_clk :
    resolveBit [("A1", "sys_clk")] (some "CLK") (some ⟨"input", "U_A1", "A1"⟩) =
      .ok ⟨"sys_clk", true, true⟩ ∧
    resolveBit [("B1", "DATA0")] (some "CLK") (some ⟨"input", "U_B1", "B1"⟩) =
      .ok ⟨"DATA0", true, true⟩ := by
  exact ⟨by decide, by decide⟩

/-- C4: when a sensitivity string is supplied, every bit's ignore flag is
false iff the resolved signal text occurs case-insensitively inside the
sensitivity string, and this computation fully replaces the default
`CLK_IN`-based ignore value: for *every* signal text (the literal
`"CLK_IN"` included) the result is just the negated substring test. -/
theorem C4_sensitivity_replaces_default (sens : String) (pins : List (String × String))
    (b : BoundaryBitRec) (r : ResolvedBit)
    (h : resolveBit pins (some sens) (some b) = .ok r) :
    (r.bbit_ignore = false ↔ strcasestrFound sens r.bbit_names = true) ∧
    (∀ s : String, computeIgnore (some sens) s = !strcasestrFound sens s) := by
  have hr : r = ⟨resolveSignal pins b.pin,
      computeIgnore (some sens) (resolveSignal pins b.pin), b.typ = "input"⟩ := by
    have := h
    unfold resolveBit at this
    exact (Except.ok.inj this).symm
  subst hr
  constructor
  · simp only [computeIgnore, strcasestrFound]
    split <;> simp_all
  · intro s
    simp only [computeIgnore]
    split <;> simp_all

/-- C4 witness: concrete instance of the override — signal `"sys_clk"`
with sensitivity `"CLK"` keeps ignore equal to the negated substring
test. -/
theorem C4_witness :
    ((true : Bool) = false ↔ strcasestrFound "CLK" "sys_clk" = true) ∧
    (∀ s : String, computeIgnore (some "CLK") s = !strcasestrFound "CLK" s) := by
  have h := C4_sensitivity_replaces_default "CLK" [("A1", "sys_clk")]
    ⟨"input", "U_A1", "A1"⟩ ⟨"sys_clk", true, true⟩ (by decide)
  exact h

/-- C5: evaluating the code on the failing input — a layout file whose
only matching line is a header declaring 1 boundary bit, with no
bit-definition record stored — the bit table holds nothing at index 0,
yet the resolver loop runs for index 0 and passes the NULL
`boundary_bit_pin[0]` / `boundary_bit_type[0]` to `strcmp`
(lines 161 and 171): undefined behaviour, modelled as `Except.error`,
instead of the claimed total construction of an ignored, non-shown
entry. -/
theorem C5_resolver_fails_on_absent_bit :
    (parse_bsdl [.header "xc7a200t" 1]).bits 0 = none ∧
    (parse_bsdl [.header "xc7a200t" 1]).boundary_bit_count = 1 ∧
    resolveAll [] none (parse_bsdl [.header "xc7a200t" 1]).bits 1 = .error () := by
  exact ⟨rfl, rfl, rfl⟩

/-- C6: whenever no layout file was supplied, every monitor iteration
prints a raw dump of the first 256 captured bytes and performs none of
the per-bit diff/report logic (its output is never a report list). -/
theorem C6_raw_dump_without_bsdl (t : MonitorTables) (count : Nat)
    (first_time sens_present : Bool) (rdata last_rdata : Nat → Nat) :
    monitorIteration false t count first_time sens_present rdata last_rdata =
      .rawDump ((List.range 256).map rdata) ∧
    ∀ lines : List ReportLine,
      monitorIteration false t count first_time sens_present rdata last_rdata ≠
        .reports lines := by
  refine ⟨rfl, fun lines h => ?_⟩
  simp [monitorIteration] at h

/-- C6 witness: a concrete iteration without a layout file dumps the
first 256 bytes of the capture. -/
theorem C6_witness :
    monitorIteration false
        ⟨fun _ => "s", fun _ => false, fun _ => true, fun _ => "U", fun _ => "P"⟩
        4 true false (fun _ => 0) (fun _ => 0) =
      .rawDump ((List.range 256).map (fun _ => 0)) := by
  exact (C6_raw_dump_without_bsdl
    ⟨fun _ => "s", fun _ => false, fun _ => true, fun _ => "U", fun _ => "P"⟩
    4 true false (fun _ => 0) (fun _ => 0)).1

/-- C7: a parsed bit-definition record is stored at its index
(overwriting any prior entry there) iff `0 <= index < CAPACITY`; an
out-of-range record leaves the whole parser state untouched — no store,
no message — so it can never appear in the resolver table. -/
theorem C7_bit_record_bounds (st : BsdlState) (number : Int) (name typ dflt : String) :
    ((0 ≤ number ∧ number < (MAX_BOUNDARY_BITS : Int)) →
      ∀ j : Nat, (bsdlStep st (.bit number name typ dflt)).bits j =
        if (j : Int) = number then some ⟨typ, name, pinFromName name⟩ else st.bits j) ∧
    (¬(0 ≤ number ∧ number < (MAX_BOUNDARY_BITS : Int)) →
      bsdlStep st (.bit number name typ dflt) = st) ∧
    (bsdlStep st (.bit number name typ dflt)).msgs = st.msgs ∧
    (bsdlStep st (.bit number name typ dflt)).part_name = st.part_name ∧
    (bsdlStep st (.bit number name typ dflt)).boundary_bit_count = st.boundary_bit_count := by
  by_cases h : 0 ≤ number ∧ number < (MAX_BOUNDARY_BITS : Int)
  · refine ⟨fun _ j => ?_, fun hc => absurd h hc, ?_, ?_, ?_⟩ <;>
      simp [bsdlStep, if_pos h]
  · refine ⟨fun hc => absurd hc h, fun _ => ?_, ?_, ?_, ?_⟩ <;>
      simp [bsdlStep, if_neg h]

/-- C7 witness: the record with index `CAPACITY = 8192` (one past the
maximum) is silently discarded, while the same record with index 3 is
stored (with the pin derived from the name). -/
theorem C7_witness :
    bsdlStep bsdlInit (.bit 8192 "U1_DATA_PIN_A3" "input" "X") = bsdlInit ∧
    (bsdlStep bsdlInit (.bit 3 "U1_DATA_PIN_A3" "input" "X")).bits 3 =
      some ⟨"input", "U1_DATA_PIN_A3", "A3"⟩ := by
  constructor
  · exact (C7_bit_record_bounds bsdlInit 8192 "U1_DATA_PIN_A3" "input" "X").2.1 (by decide)
  · rw [(C7_bit_record_bounds bsdlInit 3 "U1_DATA_PIN_A3" "input" "X").1 (by decide) 3]
    decide

/-- Folding the BSDL parser over any line list: `part_name` ends at the
identifier committed by the last line whose `%s` conversion succeeded
(full or partial header match), `boundary_bit_count` ends at the count of
the last fully matching header (each falling back to the incoming
state), and one progress message is appended per fully matching header
line, in order. -/
theorem parse_bsdl_foldl_headers (lines : List BsdlLine) :
    ∀ st : BsdlState,
      (lines.foldl bsdlStep st).part_name =
        (lines.filterMap partNameOf).getLastD st.part_name ∧
      (lines.foldl bsdlStep st).boundary_bit_count =
        ((lines.filterMap headerOf).map Prod.snd).getLastD st.boundary_bit_count ∧
      (lines.foldl bsdlStep st).msgs =
        st.msgs ++ (lines.filterMap headerOf).map (fun p => ⟨p.1, p.2⟩) := by
  induction lines with
  | nil => intro st; exact ⟨rfl, rfl, by simp⟩
  | cons l t ih =>
    intro st
    cases l with
    | header name count =>
      rcases ih { st with part_name := name, boundary_bit_count := count, msgs := st.msgs ++ [⟨name, count⟩] } with ⟨h1, h2, h3⟩
      have hpn : List.filterMap partNameOf (BsdlLine.header name count :: t) =
          name :: List.filterMap partNameOf t := by
        simp [partNameOf]
      have hhd : List.filterMap headerOf (BsdlLine.header name count :: t) =
          (name, count) :: List.filterMap headerOf t := by
        simp [headerOf]
      refine ⟨?_, ?_, ?_⟩
      · rw [List.foldl_cons, hpn, List.getLastD_cons]
        exact h1
      · rw [List.foldl_cons, hhd, List.map_cons, List.getLastD_cons]
        exact h2
      · rw [List.foldl_cons, hhd, List.map_cons, List.append_cons]
        exact h3
    | partialHeader name =>
      rcases ih { st with part_name := name } with ⟨h1, h2, h3⟩
      have hpn : List.filterMap partNameOf (BsdlLine.partialHeader name :: t) =
          name :: List.filterMap partNameOf t := by
        simp [partNameOf]
      have hhd : List.filterMap headerOf (BsdlLine.partialHeader name :: t) =
          List.filterMap headerOf t := by
        simp [headerOf]
      refine ⟨?_, ?_, ?_⟩
      · rw [List.foldl_cons, hpn, List.getLastD_cons]
        exact h1
      · rw [List.foldl_cons, hhd]
        exact h2
      · rw [List.foldl_cons, hhd]
        exact h3
    | bit number name typ dflt =>
      rcases ih (bsdlStep st (.bit number name typ dflt)) with ⟨h1, h2, h3⟩
      have hstep : bsdlStep st (.bit number name typ dflt) =
          if 0 ≤ number ∧ number < (MAX_BOUNDARY_BITS : Int) then
            { st with bits := fun j =>
                if (j : Int) = number then some ⟨typ, name, pinFromName name⟩ else st.bits j }
          else st := rfl
      have hp : (bsdlStep st (.bit number name typ dflt)).part_name = st.part_name := by
        rw [hstep]; split <;> rfl
      have hc : (bsdlStep st (.bit number name typ dflt)).boundary_bit_count =
          st.boundary_bit_count := by
        rw [hstep]; split <;> rfl
      have hm : (bsdlStep st (.bit number name typ dflt)).msgs = st.msgs := by
        rw [hstep]; split <;> rfl
      have hpn : List.filterMap partNameOf (BsdlLine.bit number name typ dflt :: t) =
          List.filterMap partNameOf t := by
        simp [partNameOf]
      have hhd : List.filterMap headerOf (BsdlLine.bit number name typ dflt :: t) =
          List.filterMap headerOf t := by
        simp [headerOf]
      refine ⟨?_, ?_, ?_⟩
      · rw [List.foldl_cons, hpn, h1, hp]
      · rw [List.foldl_cons, hhd, h2, hc]
      · rw [List.foldl_cons, hhd, h3, hm]
    | other =>
      rcases ih st with ⟨h1, h2, h3⟩
      have hpn : List.filterMap partNameOf (BsdlLine.other :: t) =
          List.filterMap partNameOf t := by
        simp [partNameOf]
      have hhd : List.filterMap headerOf (BsdlLine.other :: t) =
          List.filterMap headerOf t := by
        simp [headerOf]
      exact ⟨by rw [List.foldl_cons, hpn]; exact h1,
             by rw [List.foldl_cons, hhd]; exact h2,
             by rw [List.foldl_cons, hhd]; exact h3⟩

/-- C8 counterexample: a layout file with two matching header statements
produces *two* progress messages (the `fprintf` of line 98 runs once per
matching line), refuting "the header is reported exactly once"; and a
full header followed by a partial header match (its `%d` conversion
fails after the `%s` was committed) ends with the partial line's
identifier in `part_name`, refuting "part_name holds the identifier of
the last matching header statement". -/
theorem C8_counterexample :
    (parse_bsdl [.header "X" 5, .header "Y" 7]).msgs = [⟨"X", 5⟩, ⟨"Y", 7⟩] ∧
    ¬ (parse_bsdl [.header "X" 5, .header "Y" 7]).msgs.length = 1 ∧
    (parse_bsdl [.header "X" 5, .partialHeader "Z"]).part_name = "Z" ∧
    ¬ (parse_bsdl [.header "X" 5, .partialHeader "Z"]).part_name = "X" := by
  exact ⟨rfl, by decide, rfl, by decide⟩

/-- C8 amended: for every layout file with one or more matching header
statements, `boundary_bit_count` holds the count of the last matching
header statement (last match wins when repeated), `part_name` holds the
identifier committed by the last line whose identifier conversion
succeeded (the last matching header statement, unless a later partial
header match overwrote it), and the header is reported via one progress
message *per matching statement* (so exactly once only when a single
header statement matches). -/
theorem C8_last_header_and_messages (lines : List BsdlLine)
    (_h : lines.filterMap headerOf ≠ []) :
    (parse_bsdl lines).part_name = (lines.filterMap partNameOf).getLastD "" ∧
    (parse_bsdl lines).boundary_bit_count =
      ((lines.filterMap headerOf).map Prod.snd).getLastD 0 ∧
    (parse_bsdl lines).msgs =
      (lines.filterMap headerOf).map (fun p => ⟨p.1, p.2⟩) ∧
    (parse_bsdl lines).msgs.length = (lines.filterMap headerOf).length := by
  rcases parse_bsdl_foldl_headers lines bsdlInit with ⟨h1, h2, h3⟩
  have h3' : (parse_bsdl lines).msgs =
      (lines.filterMap headerOf).map (fun p => ⟨p.1, p.2⟩) := by
    simpa [parse_bsdl, bsdlInit] using h3
  refine ⟨h1, h2, h3', ?_⟩
  rw [h3', List.length_map]

/-- C8 witness: a single-header file ends with that header's identifier
and count and exactly one progress message. -/
theorem C8_witness :
    (parse_bsdl [.header "xc7a100t" 242]).part_name =
      ([("xc7a100t" : String)]).getLastD "" ∧
    (parse_bsdl [.header "xc7a100t" 242]).msgs.length = 1 := by
  have h := C8_last_header_and_messages [.header "xc7a100t" 242] (by decide)
  exact ⟨h.1, by rw [h.2.2.2]; rfl⟩

/-- A bit's report decision yields a line exactly when the three nested
conditions of lines 223-227 hold. -/
theorem reportDecision_isSome_iff (t : MonitorTables) (ft sp : Bool)
    (rdata last_rdata : Nat → Nat) (i : Nat) :
    (reportDecision t ft sp rdata last_rdata i).isSome = true ↔
      (t.bbit_show i = true ∧
       ((ft = true ∧ sp = false) ∨ t.bbit_ignore i = false) ∧
       (ft = true ∨ bitAt last_rdata i ≠ bitAt rdata i)) := by
  unfold reportDecision
  split_ifs with h1 h2 h3 <;> simp_all

/-- A report line produced for loop index `i` carries index `i`. -/
theorem reportDecision_idx (t : MonitorTables) (ft sp : Bool)
    (rdata last_rdata : Nat → Nat) (i : Nat) (l : ReportLine)
    (h : reportDecision t ft sp rdata last_rdata i = some l) : l.idx = i := by
  unfold reportDecision at h
  split_ifs at h
  injection h with h'
  subst h'
  rfl

/-- Membership characterisation of the per-bit report list: index `i` is
reported iff it is within the loop bound and the display predicate
holds. -/
theorem mem_perBitReports_iff (t : MonitorTables) (count : Nat) (ft sp : Bool)
    (rdata last_rdata : Nat → Nat) (i : Nat) :
    (∃ l ∈ perBitReports t count ft sp rdata last_rdata, l.idx = i) ↔
      (i < count ∧ t.bbit_show i = true ∧
       ((ft = true ∧ sp = false) ∨ t.bbit_ignore i = false) ∧
       (ft = true ∨ bitAt last_rdata i ≠ bitAt rdata i)) := by
  constructor
  · rintro ⟨l, hl, hidx⟩
    rcases List.mem_filterMap.mp hl with ⟨j, hj, hf⟩
    have hji : j = i := by
      rw [← reportDecision_idx t ft sp rdata last_rdata j l hf]
      exact hidx
    subst hji
    refine ⟨List.mem_range.mp hj, ?_⟩
    exact (reportDecision_isSome_iff t ft sp rdata last_rdata j).mp (by rw [hf]; rfl)
  · rintro ⟨hic, hrest⟩
    have hs := (reportDecision_isSome_iff t ft sp rdata last_rdata i).mpr hrest
    rcases Option.isSome_iff_exists.mp hs with ⟨l, hl⟩
    exact ⟨l, List.mem_filterMap.mpr ⟨i, List.mem_range.mpr hic, hl⟩,
      reportDecision_idx t ft sp rdata last_rdata i l hl⟩

/-- After the first iteration, a capture identical byte-for-byte to the
previous one produces no report lines. -/
theorem perBitReports_nil_of_unchanged (t : MonitorTables) (count : Nat) (sp : Bool)
    (rdata last_rdata : Nat → Nat) (h : ∀ n, rdata n = last_rdata n) :
    perBitReports t count false sp rdata last_rdata = [] := by
  unfold perBitReports
  rw [List.filterMap_eq_nil_iff]
  intro j _hj
  have hb : bitAt last_rdata j = bitAt rdata j := by
    unfold bitAt
    rw [h (j >>> 3)]
  unfold reportDecision
  simp [hb]

/-- In a monitor run whose second capture repeats the first, the second
iteration reports nothing (the first iteration's capture became
`last_rdata` via the full-buffer copy of line 252). -/
theorem monitorSteps_second_nil (t : MonitorTables) (count : Nat) (sp ft : Bool)
    (last_rdata rdata : Nat → Nat) (rest : List (Nat → Nat)) :
    (monitorSteps true t count sp ft last_rdata (rdata :: rdata :: rest))[1]? =
      some (.reports []) := by
  simp [monitorSteps, monitorIteration,
    perBitReports_nil_of_unchanged t count sp rdata rdata (fun _ => rfl)]

/-- Fixed table and buffer used to instantiate the monitor theorems on a
concrete input. -/
def sampleTables : MonitorTables :=
  ⟨fun _ => "led", fun _ => false, fun _ => true, fun _ => "U1_LED_A1", fun _ => "A1"⟩

/-- An all-zero capture buffer. -/
def zeroBuf : Nat → Nat := fun _ => 0

/-- C1: for every monitor iteration and every index `i` below
`boundary_bit_count`, a per-bit report line is printed iff
`bbit_show[i]` holds, and (first iteration with no sensitivity string, or
`bbit_ignore[i]` is false), and (first iteration or bit `i` of the
current capture differs from bit `i` of the previous capture); on the
first capture every shown, non-filtered bit is reported even when the
captures are byte-for-byte equal, and two consecutive identical captures
after the first report nothing. -/
theorem C1_display_predicate :
    (∀ (t : MonitorTables) (count : Nat) (ft sp : Bool) (rdata last_rdata : Nat → Nat)
        (i : Nat),
        (∃ l ∈ perBitReports t count ft sp rdata last_rdata, l.idx = i) ↔
          (i < count ∧ t.bbit_show i = true ∧
           ((ft = true ∧ sp = false) ∨ t.bbit_ignore i = false) ∧
           (ft = true ∨ bitAt last_rdata i ≠ bitAt rdata i))) ∧
    (∀ (t : MonitorTables) (count : Nat) (sp : Bool) (rdata : Nat → Nat) (i : Nat),
        i < count → t.bbit_show i = true → (sp = false ∨ t.bbit_ignore i = false) →
        ∃ l ∈ perBitReports t count true sp rdata rdata, l.idx = i) ∧
    (∀ (t : MonitorTables) (count : Nat) (sp : Bool) (rdata last_rdata : Nat → Nat),
        (∀ n, rdata n = last_rdata n) →
        perBitReports t count false sp rdata last_rdata = []) ∧
    (∀ (t : MonitorTables) (count : Nat) (sp ft : Bool) (last_rdata rdata : Nat → Nat)
        (rest : List (Nat → Nat)),
        (monitorSteps true t count sp ft last_rdata (rdata :: rdata :: rest))[1]? =
          some (.reports [])) := by
  refine ⟨mem_perBitReports_iff, ?_, perBitReports_nil_of_unchanged, monitorSteps_second_nil⟩
  intro t count sp rdata i hic hshow hfilter
  apply (mem_perBitReports_iff t count true sp rdata rdata i).mpr
  refine ⟨hic, hshow, ?_, Or.inl rfl⟩
  rcases hfilter with hsp | hig
  · exact Or.inl ⟨rfl, hsp⟩
  · exact Or.inr hig

/-- C1 witness: with a concrete table, a repeated capture after the
first iteration reports nothing, while the first capture reports bit 0
even though current and previous buffers are identical. -/
theorem C1_witness :
    perBitReports sampleTables 2 false false zeroBuf zeroBuf = [] ∧
    (∃ l ∈ perBitReports sampleTables 2 true false zeroBuf zeroBuf, l.idx = 0) := by
  constructor
  · exact C1_display_predicate.2.2.1 sampleTables 2 false zeroBuf zeroBuf (fun _ => rfl)
  · exact C1_display_predicate.2.1 sampleTables 2 false zeroBuf 0 (by decide) (by decide)
      (Or.inl rfl)

/-- C9: the header's bit count is stored with no validation against
`MAX_BOUNDARY_BITS`, and it directly bounds the resolver-build and
per-bit-diff loops: every table index and snapshot byte offset those
loops touch is in bounds exactly when the count is at most 8192, while
any larger count makes the loops touch index 8192 and snapshot byte 1024,
both one past their arrays. -/
theorem C9_count_used_unvalidated :
    (∀ (st : BsdlState) (n : String) (c : Int),
        (bsdlStep st (.header n c)).boundary_bit_count = c) ∧
    (∀ count : Nat, count ≤ MAX_BOUNDARY_BITS →
        (∀ i ∈ bitLoopAccesses count, i < MAX_BOUNDARY_BITS) ∧
        (∀ b ∈ diffLoopByteAccesses count, b < SNAPSHOT_BYTES)) ∧
    (∀ count : Nat, MAX_BOUNDARY_BITS < count →
        MAX_BOUNDARY_BITS ∈ bitLoopAccesses count ∧
        SNAPSHOT_BYTES ∈ diffLoopByteAccesses count ∧
        ¬ MAX_BOUNDARY_BITS < MAX_BOUNDARY_BITS ∧
        ¬ SNAPSHOT_BYTES < SNAPSHOT_BYTES) := by
  refine ⟨fun st n c => rfl, ?_, ?_⟩
  · intro count hc
    constructor
    · intro i hi
      exact lt_of_lt_of_le (List.mem_range.mp hi) hc
    · intro b hb
      rcases List.mem_map.mp hb with ⟨i, hi, rfl⟩
      have h1 : i < MAX_BOUNDARY_BITS := lt_of_lt_of_le (List.mem_range.mp hi) hc
      rw [Nat.shiftRight_eq_div_pow]
      have h2 : MAX_BOUNDARY_BITS = SNAPSHOT_BYTES * 2 ^ 3 := by decide
      exact Nat.div_lt_of_lt_mul (h2 ▸ h1)
  · intro count hcount
    refine ⟨List.mem_range.mpr hcount, ?_, Nat.lt_irrefl _, Nat.lt_irrefl _⟩
    exact List.mem_map.mpr ⟨MAX_BOUNDARY_BITS, List.mem_range.mpr hcount, by decide⟩

/-- C9 witness: a header count of 8193 (one past capacity) makes the
loops touch table index 8192 and snapshot byte 1024, both out of
bounds. -/
theorem C9_witness :
    MAX_BOUNDARY_BITS ∈ bitLoopAccesses 8193 ∧
    SNAPSHOT_BYTES ∈ diffLoopByteAccesses 8193 ∧
    ¬ MAX_BOUNDARY_BITS < MAX_BOUNDARY_BITS ∧
    ¬ SNAPSHOT_BYTES < SNAPSHOT_BYTES := by
  exact C9_count_used_unvalidated.2.2 8193 (by decide)

/-- Folding the XDC parser adds one pin record per mapping line, with no
capacity comparison. -/
theorem parse_xdc_foldl_pins (lines : List XdcLine) :
    ∀ st : XdcState,
      (lines.foldl xdcStep st).pins.length =
        st.pins.length + (lines.filter isMapping).length := by
  induction lines with
  | nil => intro st; simp
  | cons l t ih =>
    intro st
    cases l with
    | mapping pin signal =>
      rw [List.foldl_cons, ih]
      simp [xdcStep, isMapping, List.filter_cons]
      omega
    | other =>
      rw [List.foldl_cons, ih]
      simp [xdcStep, isMapping, List.filter_cons]

/-- Folding the XDC parser from a state whose recorded write indices are
exactly `0..pin_count-1` preserves that shape: each store happens at the
then-current `pin_count`. -/
theorem parse_xdc_foldl_writes (lines : List XdcLine) :
    ∀ st : XdcState, st.writes = List.range st.pins.length →
      (lines.foldl xdcStep st).writes =
        List.range ((lines.foldl xdcStep st).pins.length) := by
  induction lines with
  | nil => intro st h; exact h
  | cons l t ih =>
    intro st h
    cases l with
    | mapping pin signal =>
      rw [List.foldl_cons]
      apply ih
      show st.writes ++ [st.pins.length] = List.range ((st.pins ++ [(pin, signal)]).length)
      rw [h, List.length_append, ← List.range_succ]
      rfl
    | other =>
      rw [List.foldl_cons]
      exact ih st h

/-- C10: the XDC parser appends every extracted mapping at index
`pin_count` and increments `pin_count` with no check against `MAX_PINS`:
the writes are exactly the indices `0..n-1` for `n` mapping lines, they
stay in bounds iff `n ≤ MAX_PINS`, and an input with 4097 mapping lines
makes the parser write at index 4096, one past the arrays — no mapping is
ever dropped on overflow. -/
theorem C10_pin_writes_unbounded :
    (∀ lines : List XdcLine,
        (parse_xdc lines).pins.length = (lines.filter isMapping).length ∧
        (parse_xdc lines).writes = List.range ((lines.filter isMapping).length) ∧
        ((∀ w ∈ (parse_xdc lines).writes, w < MAX_PINS) ↔
          (lines.filter isMapping).length ≤ MAX_PINS)) ∧
    (MAX_PINS ∈ (parse_xdc (List.replicate (MAX_PINS + 1) (.mapping "A1" "led"))).writes ∧
     ¬ MAX_PINS < MAX_PINS) := by
  have key : ∀ lines : List XdcLine,
      (parse_xdc lines).pins.length = (lines.filter isMapping).length ∧
      (parse_xdc lines).writes = List.range ((lines.filter isMapping).length) := by
    intro lines
    have h1 := parse_xdc_foldl_pins lines ⟨[], []⟩
    have h2 := parse_xdc_foldl_writes lines ⟨[], []⟩ rfl
    constructor
    · unfold parse_xdc
      rw [h1]
      simp
    · unfold parse_xdc
      rw [h2, h1]
      simp
  refine ⟨fun lines => ⟨(key lines).1, (key lines).2, ?_⟩, ?_, Nat.lt_irrefl _⟩
  · rw [(key lines).2]
    constructor
    · intro hall
      by_contra hgt
      push_neg at hgt
      exact absurd (hall MAX_PINS (List.mem_range.mpr hgt)) (Nat.lt_irrefl _)
    · intro hle w hw
      exact lt_of_lt_of_le (List.mem_range.mp hw) hle
  · have hfil : (List.replicate (MAX_PINS + 1) (XdcLine.mapping "A1" "led")).filter isMapping =
        List.replicate (MAX_PINS + 1) (XdcLine.mapping "A1" "led") :=
      List.filter_eq_self.mpr (fun a ha => by rw [List.eq_of_mem_replicate ha]; rfl)
    rw [(key _).2, hfil, List.length_replicate]
    exact List.mem_range.mpr (Nat.lt_succ_self _)

/-- C10 witness: one mapping line among two input lines yields one stored
pin written at index 0. -/
theorem C10_witness :
    (parse_xdc [XdcLine.mapping "A1" "led", XdcLine.other]).pins.length = 1 ∧
    (parse_xdc [XdcLine.mapping "A1" "led", XdcLine.other]).writes = List.range 1 := by
  have h := C10_pin_writes_unbounded.1 [XdcLine.mapping "A1" "led", XdcLine.other]
  exact ⟨by rw [h.1]; rfl, by rw [h.2.1]; rfl⟩

end BoundaryScan
